import Mathlib

/-!
Shallow embedding of the Procedural Identity Simulator (src/PIS.py).

The simulation is a discrete-time multi-agent activation loop: each tick a
stimulus is generated, a global field boosts every agent's energy, each agent
processes the stimulus (adding intensity * role-sensitivity to its energy and
reporting whether it crossed the fronting threshold), the highest-energy
candidate fronts and inhibits its peers, and every agent's energy decays,
floored at zero.

Energies and intensities are modelled as rationals.  The tunable constants and
the role-sensitivity table (free names in the Python source, configured at
startup per the design) are gathered in a `Config`.  Python `dict` lookup is
modelled by association-list lookup (`alookup`); a `KeyError` and other
failures are modelled by `Option`.  The random stimulus source is injected as
a stream `Nat → Stimulus`, matching the seedable generator of the design.
-/

namespace PIS

/-- A trigger record: stimulus category, target agent name, threshold. -/
structure Trigger where
  stimulus_type : String
  target : String
  threshold : ℚ
deriving Repr, DecidableEq

/-- An agent (alter): name, role, energy, plus inert relational data. -/
structure Alter where
  name : String
  role : String
  energy : ℚ
  memory_access : List (String × ℚ) := []
  triggers : List Trigger := []
deriving Repr, DecidableEq

/-- An ephemeral stimulus: tagged intensity. -/
structure Stimulus where
  type : String
  intensity : ℚ
deriving Repr, DecidableEq

/-- Tunable constants and the role → stimulus-type sensitivity table. -/
structure Config where
  FRONT_THRESHOLD : ℚ
  INHIBITION_RATE : ℚ
  KERNEL_BOOST : ℚ
  ENERGY_DECAY : ℚ
  ROLE_SENSITIVITY : List (String × List (String × ℚ))
deriving Repr, DecidableEq

/-- Association-list lookup, modelling Python dict indexing (first match). -/
def alookup {β : Type} : List (String × β) → String → Option β
  | [], _ => none
  | (k, v) :: rest, key => if k = key then some v else alookup rest key

/-- Embeds `Alter.role_sensitivity`: `ROLE_SENSITIVITY[self.role].get(stim_type, 0.1)`.
A missing role raises `KeyError` (modelled as `none`); a missing stimulus
type inside a present role's table falls back to the default `0.1`. -/
def role_sensitivity (cfg : Config) (role : String) (stim_type : String) : Option ℚ :=
  match alookup cfg.ROLE_SENSITIVITY role with
  | none => none
  | some tbl => some ((alookup tbl stim_type).getD (1/10))

/-- Embeds `Alter.receive_stimulus`: adds `stimulus.intensity * sensitivity` to the
energy and returns whether the updated energy is ≥ `FRONT_THRESHOLD`. -/
def receive_stimulus (cfg : Config) (a : Alter) (s : Stimulus) : Option (Alter × Bool) :=
  match role_sensitivity cfg a.role s.type with
  | none => none
  | some sensitivity =>
    let a' : Alter := { a with energy := a.energy + s.intensity * sensitivity }
    some (a', decide (a'.energy ≥ cfg.FRONT_THRESHOLD))

/-- Body of the loop in `Alter.front`: every agent except the one at index
`i` (the fronting winner, compared by identity in the source) has its energy
multiplied by the inhibition factor; `j` is the index of the list head. -/
def frontAux (factor : ℚ) (i : Nat) : Nat → List Alter → List Alter
  | _, [] => []
  | j, a :: rest =>
    (if j = i then a else { a with energy := a.energy * factor }) :: frontAux factor i (j + 1) rest

/-- Embeds `Alter.front`: the winner at index `i` multiplies every other agent's
energy by `(1 - self.energy * INHIBITION_RATE)`; the winner's own energy is
read once and not modified (the source skips `self` by identity). -/
def front (cfg : Config) (alters : List Alter) (i : Nat) : List Alter :=
  match alters.get? i with
  | none => alters
  | some w => frontAux (1 - w.energy * cfg.INHIBITION_RATE) i 0 alters

/-- Embeds `NichiField.modulate`: adds `intensity * KERNEL_BOOST` to every energy. -/
def modulate (cfg : Config) (fieldIntensity : ℚ) (alters : List Alter) : List Alter :=
  alters.map fun a => { a with energy := a.energy + fieldIntensity * cfg.KERNEL_BOOST }

/-- Step 5 of the loop: `energy = max(0.0, energy - ENERGY_DECAY)` for all. -/
def decayStep (cfg : Config) (alters : List Alter) : List Alter :=
  alters.map fun a => { a with energy := max 0 (a.energy - cfg.ENERGY_DECAY) }

/-- Step 3 of the loop: every agent processes the tick's stimulus in order;
each result pairs the updated agent with its threshold flag. -/
def processAll (cfg : Config) (s : Stimulus) : List Alter → Option (List (Alter × Bool))
  | [] => some []
  | a :: rest =>
    match receive_stimulus cfg a s, processAll cfg s rest with
    | some p, some ps => some (p :: ps)
    | _, _ => none

/-- Indices (population order, starting at `i`) of the agents whose
`receive_stimulus` flag was true: the `fronting` candidate list. -/
def candidateIndicesAux : Nat → List (Alter × Bool) → List Nat
  | _, [] => []
  | i, p :: rest =>
    if p.2 then i :: candidateIndicesAux (i + 1) rest else candidateIndicesAux (i + 1) rest

/-- Candidate indices of a stimulus-phase result, in population order. -/
def candidateIndices (results : List (Alter × Bool)) : List Nat :=
  candidateIndicesAux 0 results

/-- Energy of the agent at index `i` (0 for an out-of-range index). -/
def energyAt (alters : List Alter) (i : Nat) : ℚ :=
  ((alters.get? i).map Alter.energy).getD 0

/-- Python `max(..., key=...)` over a nonempty sequence: scans left to right,
replacing the current best only on a strictly greater key, so the first of
several maximal elements wins. -/
def pyMax (key : Nat → ℚ) (best : Nat) : List Nat → Nat
  | [] => best
  | j :: js => pyMax key (if key best < key j then j else best) js

/-- Step 4 of the loop: `max(fronting, key=lambda a: a.energy)` when the
candidate list is nonempty, no winner otherwise. -/
def arbitrate (alters : List Alter) : List Nat → Option Nat
  | [] => none
  | c :: cs => some (pyMax (energyAt alters) c cs)

/-- Applies the winner's `front` side-effect when there is a winner. -/
def applyFront (cfg : Config) (alters : List Alter) : Option Nat → List Alter
  | none => alters
  | some i => front cfg alters i

/-- Steps 2–3 of a tick: field modulation then stimulus intake for all. -/
def stimulusPhase (cfg : Config) (fieldIntensity : ℚ) (s : Stimulus) (alters : List Alter) :
    Option (List (Alter × Bool)) :=
  processAll cfg s (modulate cfg fieldIntensity alters)

/-- One tick of `run_simulation`: modulate, intake, arbitrate, winner fronts,
decay.  Returns the post-decay population and the winner's index. -/
def tick (cfg : Config) (fieldIntensity : ℚ) (s : Stimulus) (alters : List Alter) :
    Option (List Alter × Option Nat) :=
  match stimulusPhase cfg fieldIntensity s alters with
  | none => none
  | some results =>
    let mid := results.map Prod.fst
    let winner := arbitrate mid (candidateIndices results)
    some (decayStep cfg (applyFront cfg mid winner), winner)

/-- Runs `n` ticks starting at tick index `t`, threading the population and
recording, per tick, the winner and the post-decay energies (the observation
`log_state` emits). -/
def runAux (cfg : Config) (fieldIntensity : ℚ) (stims : Nat → Stimulus) :
    Nat → Nat → List Alter → Option (List Alter × List (Option Nat × List ℚ))
  | 0, _, alters => some (alters, [])
  | n + 1, t, alters =>
    match tick cfg fieldIntensity (stims t) alters with
    | none => none
    | some (alters', w) =>
      match runAux cfg fieldIntensity stims n (t + 1) alters' with
      | none => none
      | some (final, trace) => some (final, (w, alters'.map Alter.energy) :: trace)

/-- Embeds `run_simulation(ticks)`: `for t in range(ticks)` — a negative count gives
an empty range, exactly `Int.toNat`. -/
def run_simulation (cfg : Config) (fieldIntensity : ℚ) (stims : Nat → Stimulus)
    (ticks : Int) (alters : List Alter) : Option (List Alter × List (Option Nat × List ℚ)) :=
  runAux cfg fieldIntensity stims ticks.toNat 0 alters

/-! ## Concrete sample data for witnesses and counterexamples -/

/-- Builds an agent with empty relational data, as the roster does. -/
def mkAlter (n r : String) (e : ℚ) : Alter :=
  { name := n, role := r, energy := e }

/-- A sensitivity row like the example in the source comments. -/
def protTbl : List (String × ℚ) :=
  [("emotional", 4/5), ("logical", 1/2), ("social", 9/10)]

/-- A small sensitivity table covering two roles. -/
def sampleTable : List (String × List (String × ℚ)) :=
  [("Protector", protTbl), ("Analyst", [("logical", 1/2)])]

/-- A sample configuration with threshold 1. -/
def sampleCfg : Config :=
  { FRONT_THRESHOLD := 1
    INHIBITION_RATE := 1/2
    KERNEL_BOOST := 1/10
    ENERGY_DECAY := 1/20
    ROLE_SENSITIVITY := sampleTable }

/-- A sample two-agent population. -/
def samplePop : List Alter :=
  [mkAlter "A" "Protector" (1/2), mkAlter "B" "Analyst" (3/10)]

/-- A configuration in which `winner.energy * INHIBITION_RATE` exceeds 1. -/
def clampCfg : Config :=
  { FRONT_THRESHOLD := 1
    INHIBITION_RATE := 1
    KERNEL_BOOST := 0
    ENERGY_DECAY := 0
    ROLE_SENSITIVITY := [] }

/-- A winner at energy 2 next to a peer at energy 1. -/
def clampPop : List Alter :=
  [mkAlter "W" "R" 2, mkAlter "P" "R" 1]

/-- A population with a three-way energy tie among candidates. -/
def tiePop : List Alter :=
  [mkAlter "A" "R" 1, mkAlter "B" "R" 1, mkAlter "C" "R" 1]

/-- A stimulus-phase result marking all three tied agents as candidates. -/
def tieResults : List (Alter × Bool) :=
  [(mkAlter "A" "R" 1, true), (mkAlter "B" "R" 1, true), (mkAlter "C" "R" 1, true)]

/-- The spec's scenario population: A at energy 9/10, B at energy 1/10. -/
def scenPop : List Alter :=
  [mkAlter "A" "R" (9/10), mkAlter "B" "R" (1/10)]

/-- A configuration with threshold 1/2 over a role with no mapped stimulus
types, so every lookup uses the default sensitivity. -/
def scenCfg2 : Config :=
  { FRONT_THRESHOLD := 1/2
    INHIBITION_RATE := 1/2
    KERNEL_BOOST := 0
    ENERGY_DECAY := 0
    ROLE_SENSITIVITY := [("R", [])] }

/-- A zero-intensity stimulus, as in the spec's two-agent scenario. -/
def scenStim : Stimulus := { type := "x", intensity := 0 }

/-- The stimulus-phase outcome of `scenCfg2`/`scenStim` on `scenPop`: only A
crosses the 1/2 threshold. -/
def scenResults2 : List (Alter × Bool) :=
  [(mkAlter "A" "R" (9/10), true), (mkAlter "B" "R" (1/10), false)]

/-- A stimulus whose type no role maps, arriving with intensity 0. -/
def noCandStim : Stimulus := { type := "sonic", intensity := 0 }

/-- A population whose energies sit below the 1/2 threshold of `scenCfg2`. -/
def noCandPop : List Alter :=
  [mkAlter "A" "R" (1/5), mkAlter "B" "R" (3/10)]

/-- The stimulus-phase outcome of `scenCfg2`/`noCandStim` on `noCandPop`
with field intensity 0: nobody reaches the threshold 1/2. -/
def noCandResults : List (Alter × Bool) :=
  [(mkAlter "A" "R" (1/5), false), (mkAlter "B" "R" (3/10), false)]

/-! ## Helper lemmas -/

theorem modulate_get? (cfg : Config) (fi : ℚ) (alters : List Alter) (j : Nat) :
    (modulate cfg fi alters).get? j =
      (alters.get? j).map (fun a => { a with energy := a.energy + fi * cfg.KERNEL_BOOST }) := by
  simp [modulate, List.get?_map]

theorem decayStep_get? (cfg : Config) (alters : List Alter) (j : Nat) :
    (decayStep cfg alters).get? j =
      (alters.get? j).map (fun a => { a with energy := max 0 (a.energy - cfg.ENERGY_DECAY) }) := by
  simp [decayStep, List.get?_map]

theorem mem_decayStep (cfg : Config) (alters : List Alter) (a : Alter)
    (h : a ∈ decayStep cfg alters) : 0 ≤ a.energy := by
  simp only [decayStep, List.mem_map] at h
  obtain ⟨b, _, rfl⟩ := h
  exact le_max_left 0 _

theorem receive_stimulus_eq (cfg : Config) (a : Alter) (s : Stimulus) (a' : Alter) (b : Bool)
    (h : receive_stimulus cfg a s = some (a', b)) :
    ∃ sens, role_sensitivity cfg a.role s.type = some sens ∧
      a' = { a with energy := a.energy + s.intensity * sens } ∧
      (b = true ↔ cfg.FRONT_THRESHOLD ≤ a'.energy) := by
  unfold receive_stimulus at h
  cases hrs : role_sensitivity cfg a.role s.type with
  | none => rw [hrs] at h; exact absurd h (by simp)
  | some sens =>
    rw [hrs] at h
    simp only [Option.some.injEq, Prod.mk.injEq] at h
    exact ⟨sens, rfl, h.1.symm, by rw [← h.1, ← h.2]; simp [ge_iff_le]⟩

theorem processAll_length (cfg : Config) (s : Stimulus) :
    ∀ (l : List Alter) (res : List (Alter × Bool)), processAll cfg s l = some res →
      res.length = l.length := by
  intro l
  induction l with
  | nil => intro res h; simp [processAll] at h; simp [← h]
  | cons a rest ih =>
    intro res h
    unfold processAll at h
    cases h1 : receive_stimulus cfg a s with
    | none => rw [h1] at h; exact absurd h (by simp)
    | some p =>
      cases h2 : processAll cfg s rest with
      | none => rw [h1, h2] at h; exact absurd h (by simp)
      | some ps =>
        rw [h1, h2] at h
        simp only [Option.some.injEq] at h
        simp [← h, ih ps h2]

theorem processAll_get? (cfg : Config) (s : Stimulus) :
    ∀ (l : List Alter) (res : List (Alter × Bool)), processAll cfg s l = some res →
      ∀ (k : Nat) (p : Alter × Bool), res.get? k = some p →
        ∃ a, l.get? k = some a ∧ receive_stimulus cfg a s = some p := by
  intro l
  induction l with
  | nil =>
    intro res h k p hk
    simp [processAll] at h
    subst h
    simp [List.get?] at hk
  | cons a rest ih =>
    intro res h k p hk
    unfold processAll at h
    cases h1 : receive_stimulus cfg a s with
    | none => rw [h1] at h; exact absurd h (by simp)
    | some q =>
      cases h2 : processAll cfg s rest with
      | none => rw [h1, h2] at h; exact absurd h (by simp)
      | some ps =>
        rw [h1, h2] at h
        simp only [Option.some.injEq] at h
        subst h
        cases k with
        | zero =>
          simp only [List.get?] at hk
          cases hk
          exact ⟨a, rfl, h1⟩
        | succ k =>
          simp only [List.get?] at hk ⊢
          exact ih ps h2 k p hk

theorem candidateIndicesAux_lb :
    ∀ (l : List (Alter × Bool)) (i j : Nat), j ∈ candidateIndicesAux i l → i ≤ j := by
  intro l
  induction l with
  | nil => intro i j h; simp [candidateIndicesAux] at h
  | cons p rest ih =>
    intro i j h
    unfold candidateIndicesAux at h
    by_cases hp : p.2
    · simp only [hp, if_true, List.mem_cons] at h
      rcases h with rfl | h
      · exact le_refl j
      · exact Nat.le_of_succ_le (ih (i + 1) j h)
    · simp only [hp, if_false] at h
      exact Nat.le_of_succ_le (ih (i + 1) j h)

theorem candidateIndicesAux_sorted :
    ∀ (l : List (Alter × Bool)) (i : Nat), List.Pairwise (· < ·) (candidateIndicesAux i l) := by
  intro l
  induction l with
  | nil => intro i; simp [candidateIndicesAux]
  | cons p rest ih =>
    intro i
    unfold candidateIndicesAux
    by_cases hp : p.2
    · simp only [hp, if_true]
      refine List.Pairwise.cons ?_ (ih (i + 1))
      intro j hj
      exact Nat.lt_of_succ_le (candidateIndicesAux_lb rest (i + 1) j hj)
    · simp only [hp, if_false]
      exact ih (i + 1)

theorem candidateIndicesAux_mem :
    ∀ (l : List (Alter × Bool)) (i j : Nat), j ∈ candidateIndicesAux i l →
      ∃ p, l.get? (j - i) = some p ∧ p.2 = true := by
  intro l
  induction l with
  | nil => intro i j h; simp [candidateIndicesAux] at h
  | cons p rest ih =>
    intro i j h
    have hlb := candidateIndicesAux_lb (p :: rest) i j h
    unfold candidateIndicesAux at h
    by_cases hp : p.2
    · simp only [hp, if_true, List.mem_cons] at h
      rcases h with rfl | h
      · exact ⟨p, by simp, hp⟩
      · have hlb' := candidateIndicesAux_lb rest (i + 1) j h
        obtain ⟨q, hq, hq2⟩ := ih (i + 1) j h
        refine ⟨q, ?_, hq2⟩
        have : j - i = (j - (i + 1)) + 1 := by omega
        rw [this]
        simpa [List.get?] using hq
    · simp only [hp, if_false] at h
      have hlb' := candidateIndicesAux_lb rest (i + 1) j h
      obtain ⟨q, hq, hq2⟩ := ih (i + 1) j h
      refine ⟨q, ?_, hq2⟩
      have : j - i = (j - (i + 1)) + 1 := by omega
      rw [this]
      simpa [List.get?] using hq

theorem candidateIndicesAux_nil_of_all_false :
    ∀ (l : List (Alter × Bool)) (i : Nat), (∀ p ∈ l, p.2 = false) →
      candidateIndicesAux i l = [] := by
  intro l
  induction l with
  | nil => intro i _; rfl
  | cons p rest ih =>
    intro i h
    unfold candidateIndicesAux
    have hp := h p (List.mem_cons_self p rest)
    simp only [hp, Bool.false_eq_true, if_false]
    exact ih (i + 1) fun q hq => h q (List.mem_cons_of_mem p hq)

theorem pyMax_mem (key : Nat → ℚ) :
    ∀ (cs : List Nat) (best : Nat), pyMax key best cs ∈ best :: cs := by
  intro cs
  induction cs with
  | nil => intro best; simp [pyMax]
  | cons d ds ih =>
    intro best
    unfold pyMax
    by_cases hd : key best < key d
    · simp only [hd, if_true]
      rcases List.mem_cons.mp (ih d) with h | h
      · simp [h]
      · right; right; exact h
    · simp only [hd, if_false]
      rcases List.mem_cons.mp (ih best) with h | h
      · rw [h]; exact List.mem_cons_self _ _
      · right; right; exact h

theorem pyMax_ge_start (key : Nat → ℚ) :
    ∀ (cs : List Nat) (best : Nat), key best ≤ key (pyMax key best cs) := by
  intro cs
  induction cs with
  | nil => intro best; simp [pyMax]
  | cons d ds ih =>
    intro best
    unfold pyMax
    by_cases hd : key best < key d
    · simp only [hd, if_true]
      exact le_of_lt (lt_of_lt_of_le hd (ih d))
    · simp only [hd, if_false]
      exact ih best

theorem pyMax_ge (key : Nat → ℚ) :
    ∀ (cs : List Nat) (best : Nat) (j : Nat), j ∈ cs → key j ≤ key (pyMax key best cs) := by
  intro cs
  induction cs with
  | nil => intro best j h; simp at h
  | cons d ds ih =>
    intro best j h
    rcases List.mem_cons.mp h with rfl | h
    · unfold pyMax
      by_cases hd : key best < key j
      · simp only [hd, if_true]
        exact pyMax_ge_start key ds j
      · simp only [hd, if_false]
        exact le_trans (not_lt.mp hd) (pyMax_ge_start key ds best)
    · unfold pyMax
      exact ih _ j h

theorem pyMax_start_lt (key : Nat → ℚ) :
    ∀ (cs : List Nat) (best : Nat), pyMax key best cs ≠ best →
      key best < key (pyMax key best cs) := by
  intro cs
  induction cs with
  | nil => intro best h; simp [pyMax] at h
  | cons d ds ih =>
    intro best h
    unfold pyMax at h ⊢
    by_cases hd : key best < key d
    · simp only [hd, if_true] at h ⊢
      exact lt_of_lt_of_le hd (pyMax_ge_start key ds d)
    · simp only [hd, if_false] at h ⊢
      exact ih best h

theorem pyMax_tie (key : Nat → ℚ) :
    ∀ (cs : List Nat) (best : Nat), List.Pairwise (· < ·) (best :: cs) →
      ∀ j ∈ best :: cs, key j = key (pyMax key best cs) → pyMax key best cs ≤ j := by
  intro cs
  induction cs with
  | nil =>
    intro best _ j hj _
    simp at hj
    simp [pyMax, hj]
  | cons d ds ih =>
    intro best hsorted j hj hkey
    have hbd : best < d := (List.pairwise_cons.mp hsorted).1 d (List.mem_cons_self d ds)
    have hbds : ∀ x ∈ ds, best < x := fun x hx =>
      (List.pairwise_cons.mp hsorted).1 x (List.mem_cons_of_mem d hx)
    have hdds : ∀ x ∈ ds, d < x := fun x hx =>
      (List.pairwise_cons.mp (List.pairwise_cons.mp hsorted).2).1 x hx
    have hds : List.Pairwise (· < ·) ds :=
      (List.pairwise_cons.mp (List.pairwise_cons.mp hsorted).2).2
    unfold pyMax at hkey ⊢
    by_cases hd : key best < key d
    · simp only [hd, if_true] at hkey ⊢
      have hsorted' : List.Pairwise (· < ·) (d :: ds) := List.pairwise_cons.mpr ⟨hdds, hds⟩
      rcases List.mem_cons.mp hj with rfl | hj'
      · exfalso
        have h1 : key j < key d := hd
        have h2 : key d ≤ key (pyMax key d ds) := pyMax_ge_start key ds d
        rw [hkey] at h1
        exact absurd (lt_of_lt_of_le h1 h2) (lt_irrefl _)
      · exact ih d hsorted' j hj' hkey
    · simp only [hd, if_false] at hkey ⊢
      have hsorted' : List.Pairwise (· < ·) (best :: ds) := List.pairwise_cons.mpr ⟨hbds, hds⟩
      rcases List.mem_cons.mp hj with rfl | hj'
      · exact ih _ hsorted' _ (List.mem_cons_self _ _) hkey
      · rcases List.mem_cons.mp hj' with rfl | hj''
        · by_cases hw : pyMax key best ds = best
          · rw [hw]; exact le_of_lt hbd
          · exfalso
            have h1 : key best < key (pyMax key best ds) := pyMax_start_lt key ds best hw
            have h2 : key j ≤ key best := not_lt.mp hd
            rw [hkey] at h2
            exact absurd (lt_of_le_of_lt h2 h1) (lt_irrefl _)
        · exact ih best hsorted' j (List.mem_cons_of_mem best hj'') hkey

theorem frontAux_get? (f : ℚ) (i : Nat) :
    ∀ (l : List Alter) (j k : Nat),
      (frontAux f i j l).get? k =
        (l.get? k).map (fun a => if j + k = i then a else { a with energy := a.energy * f }) := by
  intro l
  induction l with
  | nil => intro j k; simp [frontAux, List.get?]
  | cons a rest ih =>
    intro j k
    cases k with
    | zero => simp [frontAux, List.get?]
    | succ k =>
      simp only [frontAux, List.get?]
      rw [ih (j + 1) k]
      simp only [show j + 1 + k = j + (k + 1) from by omega]

theorem frontAux_length (f : ℚ) (i : Nat) :
    ∀ (l : List Alter) (j : Nat), (frontAux f i j l).length = l.length := by
  intro l
  induction l with
  | nil => intro j; rfl
  | cons a rest ih => intro j; simp [frontAux, ih]

theorem front_spec (cfg : Config) (alters : List Alter) (i : Nat) (w : Alter)
    (hw : alters.get? i = some w) :
    (front cfg alters i).get? i = some w ∧
    (∀ j, j ≠ i → (front cfg alters i).get? j =
      (alters.get? j).map
        (fun a => { a with energy := a.energy * (1 - w.energy * cfg.INHIBITION_RATE) })) ∧
    (front cfg alters i).length = alters.length := by
  unfold front
  rw [hw]
  refine ⟨?_, ?_, frontAux_length _ _ _ _⟩
  · rw [frontAux_get?, hw]
    simp
  · intro j hj
    rw [frontAux_get?]
    have : ¬ (0 + j = i) := by omega
    simp only [this, if_false]

theorem processAll_mem (cfg : Config) (s : Stimulus) :
    ∀ (l : List Alter) (res : List (Alter × Bool)), processAll cfg s l = some res →
      ∀ p ∈ res, ∃ a, a ∈ l ∧ receive_stimulus cfg a s = some p := by
  intro l
  induction l with
  | nil =>
    intro res h p hp
    simp [processAll] at h
    subst h
    simp at hp
  | cons a rest ih =>
    intro res h p hp
    unfold processAll at h
    cases h1 : receive_stimulus cfg a s with
    | none => rw [h1] at h; exact absurd h (by simp)
    | some q =>
      cases h2 : processAll cfg s rest with
      | none => rw [h1, h2] at h; exact absurd h (by simp)
      | some ps =>
        rw [h1, h2] at h
        simp only [Option.some.injEq] at h
        subst h
        rcases List.mem_cons.mp hp with rfl | hp'
        · exact ⟨a, List.mem_cons_self a rest, h1⟩
        · obtain ⟨b, hb, hrec⟩ := ih ps h2 p hp'
          exact ⟨b, List.mem_cons_of_mem a hb, hrec⟩

/-! ## Claim theorems -/

/-- C2: `receive_stimulus` adds `stimulus.intensity * sensitivity` to the
agent's energy, with the sensitivity looked up by role and stimulus type
(default 0.1 for an unmapped type), and returns true iff the updated energy
is ≥ `FRONT_THRESHOLD`; an agent pushed exactly to the threshold returns
true.  Stated for agents whose role is present in the table (a missing role
makes the lookup fail, see C6). -/
theorem receive_stimulus_correct (cfg : Config) (a : Alter) (s : Stimulus)
    (tbl : List (String × ℚ)) (hrole : alookup cfg.ROLE_SENSITIVITY a.role = some tbl) :
    receive_stimulus cfg a s =
      some ({ a with energy := a.energy + s.intensity * ((alookup tbl s.type).getD (1/10)) },
        decide (a.energy + s.intensity * ((alookup tbl s.type).getD (1/10)) ≥
          cfg.FRONT_THRESHOLD)) ∧
    (decide (a.energy + s.intensity * ((alookup tbl s.type).getD (1/10)) ≥
        cfg.FRONT_THRESHOLD) = true ↔
      a.energy + s.intensity * ((alookup tbl s.type).getD (1/10)) ≥ cfg.FRONT_THRESHOLD) ∧
    (a.energy < cfg.FRONT_THRESHOLD →
      a.energy + s.intensity * ((alookup tbl s.type).getD (1/10)) = cfg.FRONT_THRESHOLD →
      receive_stimulus cfg a s =
        some ({ a with energy := a.energy + s.intensity * ((alookup tbl s.type).getD (1/10)) },
          true)) := by
  have hmain : receive_stimulus cfg a s =
      some ({ a with energy := a.energy + s.intensity * ((alookup tbl s.type).getD (1/10)) },
        decide (a.energy + s.intensity * ((alookup tbl s.type).getD (1/10)) ≥
          cfg.FRONT_THRESHOLD)) := by
    unfold receive_stimulus role_sensitivity
    rw [hrole]
  refine ⟨hmain, decide_eq_true_iff, fun _ hexact => ?_⟩
  have hdec : decide (a.energy + s.intensity * ((alookup tbl s.type).getD (1/10)) ≥
      cfg.FRONT_THRESHOLD) = true :=
    decide_eq_true (ge_of_eq hexact)
  rw [hmain, hdec]

/-- C2 witness: a Protector at energy 1/2, just below the threshold 1, hit by
an emotional stimulus of intensity 5/8 (sensitivity 4/5, delta 1/2) lands
exactly on the threshold and is reported as a fronting candidate. -/
theorem receive_stimulus_correct_witness :
    receive_stimulus sampleCfg (mkAlter "A" "Protector" (1/2)) ⟨"emotional", 5/8⟩ =
      some ({ mkAlter "A" "Protector" (1/2) with
        energy := (mkAlter "A" "Protector" (1/2)).energy +
          (5/8 : ℚ) * ((alookup protTbl "emotional").getD (1/10)) }, true) :=
  (receive_stimulus_correct sampleCfg (mkAlter "A" "Protector" (1/2)) ⟨"emotional", 5/8⟩
    protTbl rfl).2.2 (by norm_num [mkAlter, sampleCfg])
    (by norm_num [mkAlter, sampleCfg, protTbl, alookup])

/-- C6 counterexample: for a role absent from the sensitivity table the
lookup does not fall back to the default 0.1 — it fails (`KeyError` in the
source, `none` here), refuting the "never raises, default for either missing
role or missing type" reading. -/
theorem role_sensitivity_missing_role_counterexample :
    alookup sampleCfg.ROLE_SENSITIVITY "Ghost" = none ∧
    role_sensitivity sampleCfg "Ghost" "emotional" = none ∧
    role_sensitivity sampleCfg "Ghost" "emotional" ≠ some (1/10) := by
  have h : role_sensitivity sampleCfg "Ghost" "emotional" = none := rfl
  exact ⟨rfl, h, by rw [h]; exact fun hc => Option.noConfusion hc⟩

/-- C6 amended: the default weight 0.1 applies only to a stimulus type absent
from a present role's row; a role absent from the table makes the lookup fail
(`KeyError`), and a mapped pair returns its mapped weight. -/
theorem role_sensitivity_default_amended (cfg : Config) (role stype : String) :
    (alookup cfg.ROLE_SENSITIVITY role = none → role_sensitivity cfg role stype = none) ∧
    (∀ tbl, alookup cfg.ROLE_SENSITIVITY role = some tbl → alookup tbl stype = none →
      role_sensitivity cfg role stype = some (1/10)) ∧
    (∀ tbl v, alookup cfg.ROLE_SENSITIVITY role = some tbl → alookup tbl stype = some v →
      role_sensitivity cfg role stype = some v) := by
  refine ⟨fun h => ?_, fun tbl h1 h2 => ?_, fun tbl v h1 h2 => ?_⟩
  · unfold role_sensitivity
    rw [h]
  · unfold role_sensitivity
    rw [h1]
    simp [h2]
  · unfold role_sensitivity
    rw [h1]
    simp [h2]

/-- C6 amended witness: the Protector row has no "sonic" entry, so the lookup
falls back to the default 0.1. -/
theorem role_sensitivity_default_witness :
    role_sensitivity sampleCfg "Protector" "sonic" = some (1/10) :=
  (role_sensitivity_default_amended sampleCfg "Protector" "sonic").2.1 protTbl rfl rfl

/-- C3: the source applies the multiplier `1 - winner.energy * INHIBITION_RATE`
without any clamp, so with winner energy 2 and rate 1 the multiplier is −1
and the peer's energy after `front` is −1, not 0: the clamp the design
requires is missing. -/
theorem front_no_clamp_bug :
    (mkAlter "W" "R" 2).energy * clampCfg.INHIBITION_RATE > 1 ∧
    ((front clampCfg clampPop 0).get? 1).map Alter.energy = some (-1) ∧
    ((-1 : ℚ) < 0) := by
  refine ⟨by norm_num [mkAlter, clampCfg], ?_, by norm_num⟩
  have h0 : clampPop.get? 0 = some (mkAlter "W" "R" 2) := rfl
  unfold front
  rw [h0]
  norm_num [frontAux, clampPop, mkAlter, clampCfg, List.get?]

/-- C4: the decay step maps every agent's energy to
`max 0 (energy - ENERGY_DECAY)`, so every agent's energy is ≥ 0 immediately
afterwards; within a tick the final state is a decay image (decay applied
unconditionally to the whole population, winner included), hence all final
energies are ≥ 0. -/
theorem decay_floor_invariant (cfg : Config) :
    (∀ (alters : List Alter) (j : Nat) (a : Alter), alters.get? j = some a →
      (decayStep cfg alters).get? j =
        some { a with energy := max 0 (a.energy - cfg.ENERGY_DECAY) }) ∧
    (∀ (alters : List Alter) (a : Alter), a ∈ decayStep cfg alters → 0 ≤ a.energy) ∧
    (∀ (fi : ℚ) (s : Stimulus) (alters : List Alter) (res : List Alter × Option Nat),
      tick cfg fi s alters = some res →
      (∃ mid, res.1 = decayStep cfg mid) ∧ ∀ a ∈ res.1, 0 ≤ a.energy) := by
  refine ⟨fun alters j a h => ?_, fun alters a h => mem_decayStep cfg alters a h,
    fun fi s alters res h => ?_⟩
  · rw [decayStep_get?, h]
    rfl
  · unfold tick at h
    cases hsp : stimulusPhase cfg fi s alters with
    | none => rw [hsp] at h; exact absurd h (by simp)
    | some results =>
      rw [hsp] at h
      simp only [Option.some.injEq] at h
      refine ⟨⟨applyFront cfg (results.map Prod.fst)
        (arbitrate (results.map Prod.fst) (candidateIndices results)), ?_⟩, ?_⟩
      · rw [← h]
      · intro a ha
        rw [← h] at ha
        exact mem_decayStep cfg _ a ha

/-- C4 witness: decaying the sample population floors agent A's energy at
`max 0 (1/2 - 1/20)`. -/
theorem decay_floor_invariant_witness :
    (decayStep sampleCfg samplePop).get? 0 =
      some { mkAlter "A" "Protector" (1/2) with
        energy := max 0 ((mkAlter "A" "Protector" (1/2)).energy - sampleCfg.ENERGY_DECAY) } :=
  (decay_floor_invariant sampleCfg).1 samplePop 0 (mkAlter "A" "Protector" (1/2)) rfl

/-- C5: arbitration over a nonempty candidate list (built in population
order) picks a candidate of maximal energy, and on ties the candidate with
the lowest population index wins — Python's `max` keeps the current best on
ties and the candidate list is strictly increasing. -/
theorem arbitrate_selects_first_max (mid : List Alter) (results : List (Alter × Bool)) (w : Nat)
    (h : arbitrate mid (candidateIndices results) = some w) :
    w ∈ candidateIndices results ∧
    (∀ j ∈ candidateIndices results, energyAt mid j ≤ energyAt mid w) ∧
    (∀ j ∈ candidateIndices results, energyAt mid j = energyAt mid w → w ≤ j) := by
  cases hc : candidateIndices results with
  | nil => rw [hc] at h; exact absurd h (by simp [arbitrate])
  | cons c cs =>
    rw [hc] at h
    unfold arbitrate at h
    simp only [Option.some.injEq] at h
    subst h
    have hsorted : List.Pairwise (· < ·) (c :: cs) := by
      rw [← hc]
      exact candidateIndicesAux_sorted results 0
    refine ⟨pyMax_mem _ cs c, fun j hj => ?_, fun j hj hkey => ?_⟩
    · rcases List.mem_cons.mp hj with rfl | hj'
      · exact pyMax_ge_start _ cs j
      · exact pyMax_ge _ cs c j hj'
    · exact pyMax_tie _ cs c hsorted j hj hkey

/-- C5 witness: with three candidates tied at energy 1, arbitration returns
index 0, a member of the candidate list that dominates candidate 1, and the
tie with candidate 2 resolves to the lower index. -/
theorem arbitrate_selects_first_max_witness :
    0 ∈ candidateIndices tieResults ∧
    energyAt tiePop 1 ≤ energyAt tiePop 0 ∧
    (energyAt tiePop 2 = energyAt tiePop 0 → (0 : Nat) ≤ 2) := by
  have h := arbitrate_selects_first_max tiePop tieResults 0 rfl
  exact ⟨h.1, h.2.1 1 (by simp [candidateIndices, tieResults, candidateIndicesAux]),
    h.2.2 2 (by simp [candidateIndices, tieResults, candidateIndicesAux])⟩

/-- C8: `front` multiplies every peer's energy by
`(1 - winner.energy * INHIBITION_RATE)` while leaving the winner entirely
unchanged, and no agent's name, role, memory_access or triggers change. -/
theorem front_frame (cfg : Config) (alters : List Alter) (i : Nat) (w : Alter)
    (hw : alters.get? i = some w) :
    (front cfg alters i).get? i = some w ∧
    (∀ j a, j ≠ i → alters.get? j = some a →
      (front cfg alters i).get? j =
        some { a with energy := a.energy * (1 - w.energy * cfg.INHIBITION_RATE) }) ∧
    (∀ j a a', alters.get? j = some a → (front cfg alters i).get? j = some a' →
      a'.name = a.name ∧ a'.role = a.role ∧
      a'.memory_access = a.memory_access ∧ a'.triggers = a.triggers) ∧
    (front cfg alters i).length = alters.length := by
  obtain ⟨h1, h2, h3⟩ := front_spec cfg alters i w hw
  refine ⟨h1, fun j a hj ha => ?_, fun j a a' ha ha' => ?_, h3⟩
  · rw [h2 j hj, ha]
    rfl
  · by_cases hj : j = i
    · subst hj
      rw [ha] at hw
      rw [h1] at ha'
      cases hw
      cases ha'
      exact ⟨rfl, rfl, rfl, rfl⟩
    · rw [h2 j hj, ha] at ha'
      simp only [Option.map_some', Option.some.injEq] at ha'
      rw [← ha']
      exact ⟨rfl, rfl, rfl, rfl⟩

/-- C8 witness: when A (energy 9/10) fronts over the sample configuration,
A is untouched and B's energy is multiplied by the inhibition factor. -/
theorem front_frame_witness :
    (front sampleCfg scenPop 0).get? 0 = some (mkAlter "A" "R" (9/10)) ∧
    (front sampleCfg scenPop 0).get? 1 =
      some { mkAlter "B" "R" (1/10) with
        energy := (mkAlter "B" "R" (1/10)).energy *
          (1 - (mkAlter "A" "R" (9/10)).energy * sampleCfg.INHIBITION_RATE) } := by
  have h := front_frame sampleCfg scenPop 0 (mkAlter "A" "R" (9/10)) rfl
  exact ⟨h.1, h.2.1 1 (mkAlter "B" "R" (1/10)) (by simp) rfl⟩

/-- C1: per tick, `front` is invoked on at most one agent — the final state
arises from at most one `applyFront` on the winner option; the winner exists
iff the candidate list is nonempty; and when no agent's post-stimulus energy
reaches the threshold there is no winner and the final state is exactly the
decay of the post-stimulus state (every agent still decays). -/
theorem tick_at_most_one_front (cfg : Config) (fi : ℚ) (s : Stimulus) (alters : List Alter)
    (results : List (Alter × Bool))
    (h : stimulusPhase cfg fi s alters = some results) :
    ∃ res, tick cfg fi s alters = some res ∧
      res.1 = decayStep cfg (applyFront cfg (results.map Prod.fst) res.2) ∧
      (res.2.isSome = true ↔ candidateIndices results ≠ []) ∧
      (candidateIndices results = [] →
        res.2 = none ∧ res.1 = decayStep cfg (results.map Prod.fst)) ∧
      ((∀ p ∈ results, p.1.energy < cfg.FRONT_THRESHOLD) →
        res.2 = none ∧ res.1 = decayStep cfg (results.map Prod.fst)) := by
  refine ⟨(decayStep cfg (applyFront cfg (results.map Prod.fst)
      (arbitrate (results.map Prod.fst) (candidateIndices results))),
    arbitrate (results.map Prod.fst) (candidateIndices results)), ?_, rfl, ?_, ?_, ?_⟩
  · unfold tick
    rw [h]
  · cases hc : candidateIndices results with
    | nil => simp [hc, arbitrate]
    | cons c cs => simp [hc, arbitrate]
  · intro hc
    rw [hc]
    exact ⟨rfl, rfl⟩
  · intro hlt
    have hfalse : ∀ p ∈ results, p.2 = false := by
      intro p hp
      obtain ⟨a, _, hrec⟩ := processAll_mem cfg s (modulate cfg fi alters) results h p hp
      obtain ⟨sens, _, _, hiff⟩ := receive_stimulus_eq cfg a s p.1 p.2 hrec
      cases hb : p.2 with
      | false => rfl
      | true => exact absurd (hiff.mp hb) (not_le.mpr (hlt p hp))
    have hc : candidateIndices results = [] :=
      candidateIndicesAux_nil_of_all_false results 0 hfalse
    rw [hc]
    exact ⟨rfl, rfl⟩

/-- C1 witness: with the sample configuration and a zero-intensity stimulus
of an unmapped type, nobody reaches the threshold, no `front` occurs, and
the tick result is exactly the decay of the post-stimulus population. -/
theorem tick_at_most_one_front_witness :
    tick scenCfg2 0 noCandStim noCandPop =
      some (decayStep scenCfg2 (noCandResults.map Prod.fst), none) := by
  obtain ⟨res, h1, -, -, h4, -⟩ :=
    tick_at_most_one_front scenCfg2 0 noCandStim noCandPop noCandResults
      (by norm_num [stimulusPhase, processAll, receive_stimulus, role_sensitivity, alookup,
        modulate, mkAlter, scenCfg2, noCandStim, noCandPop, noCandResults])
  obtain ⟨hw, hs⟩ := h4 (by norm_num [candidateIndices, candidateIndicesAux, noCandResults])
  rw [h1]
  cases res with
  | mk x y =>
    simp only [Option.some.injEq, Prod.mk.injEq]
    exact ⟨hs, hw⟩

/-- C10: whenever a tick invokes `front` on a winner, the winner's energy in
the post-stimulus state handed to `front` is ≥ `FRONT_THRESHOLD`: nothing
mutates a candidate's energy between its `receive_stimulus` returning true
and arbitration. -/
theorem winner_at_threshold (cfg : Config) (fi : ℚ) (s : Stimulus) (alters : List Alter)
    (res : List Alter × Option Nat) (w : Nat)
    (h : tick cfg fi s alters = some res) (hw : res.2 = some w) :
    ∃ results a, stimulusPhase cfg fi s alters = some results ∧
      res.1 = decayStep cfg (front cfg (results.map Prod.fst) w) ∧
      (results.map Prod.fst).get? w = some a ∧
      cfg.FRONT_THRESHOLD ≤ a.energy ∧
      energyAt (results.map Prod.fst) w = a.energy := by
  unfold tick at h
  cases hsp : stimulusPhase cfg fi s alters with
  | none => rw [hsp] at h; exact absurd h (by simp)
  | some results =>
    rw [hsp] at h
    simp only [Option.some.injEq] at h
    subst h
    simp only at hw
    have hwin : w ∈ candidateIndices results := by
      cases hc : candidateIndices results with
      | nil => rw [hc] at hw; exact absurd hw (by simp [arbitrate])
      | cons c cs =>
        rw [hc] at hw
        unfold arbitrate at hw
        simp only [Option.some.injEq] at hw
        rw [← hw]
        exact pyMax_mem _ cs c
    obtain ⟨p, hp, hp2⟩ := candidateIndicesAux_mem results 0 w hwin
    rw [Nat.sub_zero] at hp
    obtain ⟨a0, _, hrec⟩ := processAll_get? cfg s (modulate cfg fi alters) results hsp w p hp
    obtain ⟨sens, _, _, hiff⟩ := receive_stimulus_eq cfg a0 s p.1 p.2 hrec
    refine ⟨results, p.1, rfl, ?_, ?_, hiff.mp hp2, ?_⟩
    · show decayStep cfg (applyFront cfg (results.map Prod.fst)
        (arbitrate (results.map Prod.fst) (candidateIndices results))) =
        decayStep cfg (front cfg (results.map Prod.fst) w)
      rw [hw]
      rfl
    · rw [List.get?_map, hp]
      rfl
    · unfold energyAt
      rw [List.get?_map, hp]
      rfl

/-- C10 witness: in the spec's two-agent scenario A (energy 9/10) wins the
tick and its energy at the moment `front` is invoked meets the 1/2
threshold. -/
theorem winner_at_threshold_witness :
    scenCfg2.FRONT_THRESHOLD ≤ (mkAlter "A" "R" (9/10)).energy := by
  obtain ⟨results, a, h1, h2, h3, h4, h5⟩ :=
    winner_at_threshold scenCfg2 0 scenStim scenPop
      ([mkAlter "A" "R" (9/10), mkAlter "B" "R" (11/200)], some 0) 0
      (by norm_num [tick, stimulusPhase, processAll, receive_stimulus, role_sensitivity,
        alookup, modulate, decayStep, candidateIndices, candidateIndicesAux, arbitrate,
        pyMax, applyFront, front, frontAux, energyAt, mkAlter, scenCfg2, scenStim, scenPop,
        List.get?])
      rfl
  have hres : scenResults2 = results := by
    have hsp : stimulusPhase scenCfg2 0 scenStim scenPop = some scenResults2 := by
      norm_num [stimulusPhase, processAll, receive_stimulus, role_sensitivity, alookup,
        modulate, mkAlter, scenCfg2, scenStim, scenPop, scenResults2]
    rw [hsp] at h1
    exact Option.some.inj h1
  rw [← hres] at h3
  have ha : a = mkAlter "A" "R" (9/10) := by
    have : (scenResults2.map Prod.fst).get? 0 = some (mkAlter "A" "R" (9/10)) := rfl
    rw [this] at h3
    exact (Option.some.inj h3).symm
  rw [← ha]
  exact h4

/-- C7 counterexample: a negative tick count is not rejected and no error is
signalled — `range(-1)` is empty, so the run completes normally with zero
ticks and an unchanged population. -/
theorem negative_ticks_not_rejected :
    run_simulation sampleCfg 0 (fun _ => noCandStim) (-1) samplePop =
      some (samplePop, []) ∧
    run_simulation sampleCfg 0 (fun _ => noCandStim) (-1) samplePop ≠ none := by
  have h : run_simulation sampleCfg 0 (fun _ => noCandStim) (-1) samplePop =
      some (samplePop, []) := rfl
  exact ⟨h, by rw [h]; exact fun hc => Option.noConfusion hc⟩

/-- C7 amended: a non-positive tick count is accepted, the loop body never
executes (no stimulus, modulation, arbitration, decay or observation), and
the run completes immediately with the population unchanged and an empty
observation trace; in particular `ticks = 0` is valid and produces zero
ticks. -/
theorem run_simulation_nonpositive_ticks (cfg : Config) (fi : ℚ) (stims : Nat → Stimulus)
    (ticks : Int) (alters : List Alter) (h : ticks ≤ 0) :
    run_simulation cfg fi stims ticks alters = some (alters, []) := by
  unfold run_simulation
  rw [Int.toNat_of_nonpos h]
  rfl

/-- C7 amended witness: `ticks = 0` terminates immediately with zero
observation records. -/
theorem run_simulation_nonpositive_ticks_witness :
    run_simulation sampleCfg 0 (fun _ => noCandStim) 0 samplePop = some (samplePop, []) :=
  run_simulation_nonpositive_ticks sampleCfg 0 (fun _ => noCandStim) 0 samplePop
    (le_refl 0)

/-- C9: the whole run is a deterministic function of the injected random
stimulus stream and the initial configuration: two runs over streams that
agree at every tick index and equal initial populations produce identical
results — the same final population, the same per-tick winner sequence and
the same per-tick energy trajectories. -/
theorem run_simulation_deterministic (cfg : Config) (fi : ℚ)
    (stims1 stims2 : Nat → Stimulus) (ticks : Int) (pop1 pop2 : List Alter)
    (hs : ∀ t, stims1 t = stims2 t) (hp : pop1 = pop2) :
    run_simulation cfg fi stims1 ticks pop1 = run_simulation cfg fi stims2 ticks pop2 ∧
    (run_simulation cfg fi stims1 ticks pop1).map (fun r => r.2.map Prod.fst) =
      (run_simulation cfg fi stims2 ticks pop2).map (fun r => r.2.map Prod.fst) ∧
    (run_simulation cfg fi stims1 ticks pop1).map (fun r => r.2.map Prod.snd) =
      (run_simulation cfg fi stims2 ticks pop2).map (fun r => r.2.map Prod.snd) := by
  have hs' : stims1 = stims2 := funext hs
  subst hs'
  subst hp
  exact ⟨rfl, rfl, rfl⟩

/-- C9 witness: two runs of three ticks over the same constant stream and
the same initial population agree. -/
theorem run_simulation_deterministic_witness :
    run_simulation sampleCfg 0 (fun _ => noCandStim) 3 samplePop =
      run_simulation sampleCfg 0 (fun _ => noCandStim) 3 samplePop :=
  (run_simulation_deterministic sampleCfg 0 (fun _ => noCandStim) (fun _ => noCandStim) 3
    samplePop samplePop (fun _ => rfl) rfl).1

end PIS
